import Mathlib

set_option maxRecDepth 4000

/-!
Shallow embedding of the stream-cipher chat program (src/rust_03/main.rs).

The program performs a toy Diffie-Hellman handshake (modular exponentiation
over a fixed 64-bit prime), derives an LCG keystream from the shared secret,
XOR-encrypts console messages, and exchanges them as 4-byte little-endian
length-prefixed frames over a TCP stream.

Machine integers (u64 / u32 / u8) are modelled as Nat with explicit
reductions mod 2 ^ 64 / 2 ^ 32 / 256 exactly where the Rust code wraps,
truncates, or masks.  Byte strings are `List Nat` whose elements are byte
values.  The fallible network reads are modelled as `Option`-returning
functions over the list of bytes available in the stream.
-/

/-- `DH_P` (main.rs:6): the hardcoded 64-bit prime modulus. -/
def DH_P : Nat := 0xD87FA3E29184C7F3

/-- `DH_G` (main.rs:7): the hardcoded generator. -/
def DH_G : Nat := 2

/-- Loop of `mod_exp` (main.rs:14-20): square-and-multiply state
`(base, exp, result)`; each product is exact (the Rust code widens to u128
before reducing mod `modulus`, and both operands are below `modulus ≤ 2^64`,
so the u128 product never wraps and agrees with the Nat product). -/
def modExpAux (base exp modulus result : Nat) : Nat :=
  if exp = 0 then result
  else
    modExpAux ((base * base) % modulus) (exp / 2) modulus
      (if exp % 2 = 1 then (result * base) % modulus else result)
termination_by exp
decreasing_by simp_wf; omega

/-- `mod_exp` (main.rs:10-22): `result = 1`, `base %= modulus`, then the loop. -/
def mod_exp (base exp modulus : Nat) : Nat :=
  modExpAux (base % modulus) exp modulus 1

/-- `struct LCG` (main.rs:30-32): the keystream generator state (u64). -/
structure LCG where
  state : Nat

/-- `LCG::new` (main.rs:35-37). -/
def LCG.new (seed : Nat) : LCG :=
  ⟨seed⟩

/-- `LCG::next` (main.rs:39-42): `state = state.wrapping_mul(1103515245)
.wrapping_add(12345)` then output `((state >> 32) & 0xFF) as u8`.
Returns the updated state together with the output byte. -/
def LCG.next (l : LCG) : LCG × Nat :=
  (⟨((l.state * 1103515245) % 2 ^ 64 + 12345) % 2 ^ 64⟩,
   ((l.state * 1103515245) % 2 ^ 64 + 12345) % 2 ^ 64 / 2 ^ 32 % 256)

/-- The `(0..length).map(|_| rng.next()).collect()` iteration of
`generate_keystream` (main.rs:27), with the generator state threaded
explicitly. -/
def keystreamAux (l : LCG) : Nat → List Nat
  | 0 => []
  | n + 1 => (l.next).2 :: keystreamAux (l.next).1 n

/-- `generate_keystream` (main.rs:25-28). -/
def generate_keystream (seed length : Nat) : List Nat :=
  keystreamAux (LCG.new seed) length

/-- `xor_cipher` (main.rs:46-51): zips data with the keystream (truncating at
the shorter list, as Rust's `zip` does) and XORs pointwise. -/
def xor_cipher (data keystream : List Nat) : List Nat :=
  List.zipWith (fun d k => d ^^^ k) data keystream

/-- `(n as u32).to_le_bytes()` (main.rs:161): the four little-endian bytes of
a value already reduced mod 2 ^ 32. -/
def toLe32 (n : Nat) : List Nat :=
  [n % 256, n / 256 % 256, n / 65536 % 256, n / 16777216 % 256]

/-- `u32::from_le_bytes` (main.rs:170) on a 4-byte buffer. -/
def fromLe32 (bs : List Nat) : Nat :=
  match bs with
  | [b0, b1, b2, b3] => b0 + 256 * b1 + 65536 * b2 + 16777216 * b3
  | _ => 0

/-- The frame written by the send path (main.rs:161-163): 4-byte
little-endian length prefix (the length truncated `as u32`) followed by the
payload bytes. -/
def encodeFrame (payload : List Nat) : List Nat :=
  toLe32 (payload.length % 2 ^ 32) ++ payload

/-- `Read::read_exact` over a stream modelled as the list of bytes remaining
before closure: succeeds with the bytes read and the rest of the stream only
when at least `n` bytes are available, otherwise fails (UnexpectedEof); a
partially filled buffer is never returned. -/
def readExact (stream : List Nat) (n : Nat) : Option (List Nat × List Nat) :=
  if n ≤ stream.length then some (stream.take n, stream.drop n) else none

/-- The receive path of one chat turn (main.rs:169-172): read exactly 4
length bytes, decode them little-endian, then read exactly that many payload
bytes.  Returns the payload and the remaining stream bytes. -/
def recvFrame (stream : List Nat) : Option (List Nat × List Nat) :=
  match readExact stream 4 with
  | none => none
  | some (hdr, rest) =>
    match readExact rest (fromLe32 hdr) with
    | none => none
    | some (payload, rest2) => some (payload, rest2)

/-- ASCII fragment of `str::trim` (main.rs:143) on the byte level: whether a
byte is ASCII whitespace. -/
def isWs (b : Nat) : Bool :=
  b == 9 || b == 10 || b == 11 || b == 12 || b == 13 || b == 32

/-- `input.trim()` (main.rs:143), modelled on bytes for ASCII input: drop
leading and trailing whitespace bytes. -/
def trimAscii (bs : List Nat) : List Nat :=
  ((bs.dropWhile isWs).reverse.dropWhile isWs).reverse

/-- Outcome of one chat-loop iteration. -/
inductive StepOut where
  /-- The iteration completed (or skipped an empty line): remaining inbound
  stream bytes and the displayed decrypted message, if any. -/
  | ok (netRest : List Nat) (display : Option (List Nat))
  /-- An out-of-bounds slice index panic in the diagnostic logging. -/
  | indexOOB
  /-- A failed (truncated) network read: `read_exact` returned an error. -/
  | connErr
deriving DecidableEq

/-- One iteration of the chat loop (main.rs:140-189) for a fixed shared
secret.  `line` is the console line read by `read_line` (main.rs:142),
`netIn` the bytes available on the inbound stream.  Returns the bytes
written to the stream together with the outcome.

Branches, in source order:
* empty trimmed message (main.rs:145-147): `continue`, no network activity;
* encrypt-log accesses `keystream[0] .. keystream[3]` (main.rs:156-157):
  panic when the keystream (whose length is the message length) has fewer
  than 4 bytes — modelled by the first `< 4` test; nothing has been sent yet;
* frame send (main.rs:161-163), then frame receive (main.rs:169-172), which
  fails on a truncated stream;
* decrypt-log accesses `recv_cipher[0] .. recv_cipher[3]` and
  `recv_keystream[0] .. recv_keystream[3]` (main.rs:183-185): panic when the
  received payload has fewer than 4 bytes — the frame was already sent. -/
def chatStep (secret : Nat) (line netIn : List Nat) : List Nat × StepOut :=
  if trimAscii line = [] then ([], StepOut.ok netIn none)
  else if (generate_keystream secret (trimAscii line).length).length < 4 then
    ([], StepOut.indexOOB)
  else
    match recvFrame netIn with
    | none =>
        (encodeFrame (xor_cipher (trimAscii line)
          (generate_keystream secret (trimAscii line).length)), StepOut.connErr)
    | some (recvCipher, rest) =>
        if recvCipher.length < 4
            ∨ (generate_keystream secret recvCipher.length).length < 4 then
          (encodeFrame (xor_cipher (trimAscii line)
            (generate_keystream secret (trimAscii line).length)),
           StepOut.indexOOB)
        else
          (encodeFrame (xor_cipher (trimAscii line)
            (generate_keystream secret (trimAscii line).length)),
           StepOut.ok rest (some (xor_cipher recvCipher
             (generate_keystream secret recvCipher.length))))

/-- Spec-side description of the keystream state (spec §4.2 / claim C5):
`state' = state * 1103515245 + 12345` with wraparound mod 2 ^ 64;
`lcgSpecState seed k` is the state after the k-th update starting from
`seed`. -/
def lcgSpecState (seed : Nat) : Nat → Nat
  | 0 => seed
  | k + 1 => (lcgSpecState seed k * 1103515245 + 12345) % 2 ^ 64

/-! ## Correctness of `mod_exp` -/

theorem modExpAux_eq (modulus : Nat) (hm : 1 < modulus) :
    ∀ exp base result, result < modulus →
      modExpAux base exp modulus result = result * base ^ exp % modulus := by
  intro e
  induction e using Nat.strong_induction_on with
  | _ e ih =>
    intro base result hr
    rw [modExpAux]
    by_cases h0 : e = 0
    · subst h0
      simp [Nat.mod_eq_of_lt hr]
    · rw [if_neg h0]
      have h2 : e / 2 < e := Nat.div_lt_self (Nat.pos_of_ne_zero h0) (by omega)
      by_cases hodd : e % 2 = 1
      · rw [if_pos hodd,
          ih (e / 2) h2 ((base * base) % modulus) _ (Nat.mod_lt _ (by omega))]
        have h1 : (result * base % modulus) * ((base * base % modulus) ^ (e / 2))
            ≡ (result * base) * ((base * base) ^ (e / 2)) [MOD modulus] :=
          Nat.ModEq.mul (Nat.mod_modEq _ _) ((Nat.mod_modEq _ _).pow _)
        have key : result * base * (base * base) ^ (e / 2) = result * base ^ e := by
          have halves : ∀ k, e = 2 * k + 1 →
              result * base * (base * base) ^ k = result * base ^ e := by
            intro k hk
            rw [← pow_two, ← pow_mul, hk]
            ring
          exact halves (e / 2) (by omega)
        calc (result * base % modulus) * ((base * base % modulus) ^ (e / 2)) % modulus
            = (result * base) * ((base * base) ^ (e / 2)) % modulus := h1
          _ = result * base ^ e % modulus := by rw [key]
      · rw [if_neg hodd, ih (e / 2) h2 ((base * base) % modulus) result hr]
        have h1 : result * ((base * base % modulus) ^ (e / 2))
            ≡ result * ((base * base) ^ (e / 2)) [MOD modulus] :=
          Nat.ModEq.mul (Nat.ModEq.refl result) ((Nat.mod_modEq _ _).pow _)
        have key : result * (base * base) ^ (e / 2) = result * base ^ e := by
          have halves : ∀ k, e = 2 * k →
              result * (base * base) ^ k = result * base ^ e := by
            intro k hk
            rw [← pow_two, ← pow_mul, hk]
          exact halves (e / 2) (by omega)
        calc result * ((base * base % modulus) ^ (e / 2)) % modulus
            = result * ((base * base) ^ (e / 2)) % modulus := h1
          _ = result * base ^ e % modulus := by rw [key]

theorem mod_exp_eq_pow_mod (base exp modulus : Nat) (hm : 1 < modulus) :
    mod_exp base exp modulus = base ^ exp % modulus := by
  rw [mod_exp, modExpAux_eq modulus hm exp (base % modulus) 1 (by omega),
    one_mul, ← Nat.pow_mod]

/-- C2: for every 64-bit base and exponent, `mod_exp` at the fixed prime
modulus `DH_P` equals exact big-integer exponentiation reduced mod `DH_P`
(and the result is reduced, i.e. below `DH_P`); the embedding's exact Nat
products mirror the source's overflow-free u128 intermediates. -/
theorem mod_exp_matches_bigint (base exp : Nat)
    (hb : base < 2 ^ 64) (he : exp < 2 ^ 64) :
    mod_exp base exp DH_P = base ^ exp % DH_P ∧ mod_exp base exp DH_P < DH_P := by
  have h := mod_exp_eq_pow_mod base exp DH_P (by decide)
  exact ⟨h, h ▸ Nat.mod_lt _ (by decide)⟩

theorem mod_exp_matches_bigint_witness :
    mod_exp 3 5 DH_P = 3 ^ 5 % DH_P ∧ mod_exp 3 5 DH_P < DH_P :=
  mod_exp_matches_bigint 3 5 (by decide) (by decide)

/-- C3: Diffie-Hellman symmetry — for any 64-bit private exponents `a` and
`b`, exponentiating the peer's public value yields the same shared secret on
both sides. -/
theorem dh_shared_secret_symm (a b : Nat) (ha : a < 2 ^ 64) (hb : b < 2 ^ 64) :
    mod_exp (mod_exp DH_G a DH_P) b DH_P
      = mod_exp (mod_exp DH_G b DH_P) a DH_P := by
  have hp : (1 : Nat) < DH_P := by decide
  rw [mod_exp_eq_pow_mod _ _ _ hp, mod_exp_eq_pow_mod _ _ _ hp,
    mod_exp_eq_pow_mod _ _ _ hp, mod_exp_eq_pow_mod _ _ _ hp,
    ← Nat.pow_mod, ← Nat.pow_mod, ← pow_mul, ← pow_mul, Nat.mul_comm]

theorem dh_shared_secret_symm_witness :
    mod_exp (mod_exp DH_G 3 DH_P) 5 DH_P = mod_exp (mod_exp DH_G 5 DH_P) 3 DH_P :=
  dh_shared_secret_symm 3 5 (by decide) (by decide)

/-! ## The keystream generator -/

theorem keystreamAux_length (n : Nat) : ∀ l : LCG, (keystreamAux l n).length = n := by
  induction n with
  | zero => intro l; rfl
  | succ n ih => intro l; simp [keystreamAux, ih]

theorem generate_keystream_length (seed n : Nat) :
    (generate_keystream seed n).length = n :=
  keystreamAux_length n (LCG.new seed)

theorem keystreamAux_take (n k : Nat) :
    ∀ l : LCG, (keystreamAux l (n + k)).take n = keystreamAux l n := by
  induction n with
  | zero => intro l; simp [keystreamAux]
  | succ n ih =>
    intro l
    rw [show n + 1 + k = (n + k) + 1 by omega]
    simp [keystreamAux, ih]

/-- C4: `generate_keystream seed n` has exactly `n` bytes, and (being a pure
function restarted from the seed on every call) its output for length `n` is
a prefix of its output for any longer length `n + k`. -/
theorem keystream_length_and_take (seed n k : Nat) (hs : seed < 2 ^ 64) :
    (generate_keystream seed n).length = n
      ∧ (generate_keystream seed (n + k)).take n = generate_keystream seed n :=
  ⟨generate_keystream_length seed n, keystreamAux_take n k (LCG.new seed)⟩

theorem keystream_length_and_take_witness :
    (generate_keystream 2 3).length = 3
      ∧ (generate_keystream 2 (3 + 2)).take 3 = generate_keystream 2 3 :=
  keystream_length_and_take 2 3 2 (by decide)

theorem LCG_next_fst (l : LCG) :
    (l.next).1.state = ((l.state * 1103515245) % 2 ^ 64 + 12345) % 2 ^ 64 := rfl

theorem LCG_next_snd (l : LCG) :
    (l.next).2
      = ((l.state * 1103515245) % 2 ^ 64 + 12345) % 2 ^ 64 / 2 ^ 32 % 256 := rfl

theorem keystreamAux_succ (l : LCG) (n : Nat) :
    keystreamAux l (n + 1) = (l.next).2 :: keystreamAux (l.next).1 n := rfl

theorem lcgSpecState_zero (seed : Nat) : lcgSpecState seed 0 = seed := rfl

theorem lcgSpecState_succ (seed k : Nat) :
    lcgSpecState seed (k + 1)
      = (lcgSpecState seed k * 1103515245 + 12345) % 2 ^ 64 := rfl

theorem lcgSpecState_shift (x : Nat) :
    ∀ k, lcgSpecState ((x * 1103515245 + 12345) % 2 ^ 64) k
      = lcgSpecState x (k + 1) := by
  intro k
  induction k with
  | zero => rw [lcgSpecState_zero, lcgSpecState_succ, lcgSpecState_zero]
  | succ k ih => rw [lcgSpecState_succ, ih, ← lcgSpecState_succ]

theorem keystreamAux_get (i : Nat) :
    ∀ (n : Nat) (l : LCG) (h : i < (keystreamAux l n).length),
      (keystreamAux l n).get ⟨i, h⟩ = lcgSpecState l.state (i + 1) / 2 ^ 32 % 256 := by
  induction i with
  | zero =>
    intro n l h
    cases n with
    | zero => simp [keystreamAux] at h
    | succ m =>
      have h0 : (keystreamAux l (m + 1)).get ⟨0, h⟩ = (l.next).2 := by
        simp [keystreamAux_succ]
      rw [h0, LCG_next_snd, lcgSpecState_succ, lcgSpecState_zero,
        show ((l.state * 1103515245) % 2 ^ 64 + 12345) % 2 ^ 64
          = (l.state * 1103515245 + 12345) % 2 ^ 64 by omega]
  | succ i ih =>
    intro n l h
    cases n with
    | zero => simp [keystreamAux] at h
    | succ m =>
      have h2 : i < (keystreamAux (l.next).1 m).length := by
        rw [keystreamAux_length]
        rw [keystreamAux_length] at h
        omega
      have hstep : (keystreamAux l (m + 1)).get ⟨i + 1, h⟩
          = (keystreamAux (l.next).1 m).get ⟨i, h2⟩ := by
        simp [keystreamAux_succ]
      rw [hstep, ih m (l.next).1 h2, LCG_next_fst,
        show ((l.state * 1103515245) % 2 ^ 64 + 12345) % 2 ^ 64
          = (l.state * 1103515245 + 12345) % 2 ^ 64 by omega,
        lcgSpecState_shift]

/-- C5: the keystream follows the LCG recurrence
`state' = state * 1103515245 + 12345 (mod 2 ^ 64)`: the i-th output byte is
bits 39..32 — `(state >> 32) & 0xFF`, i.e. `state / 2 ^ 32 % 256` — of the
state after the (i+1)-th update starting from the seed. -/
theorem keystream_byte_spec (seed n i : Nat) (hs : seed < 2 ^ 64)
    (h : i < (generate_keystream seed n).length) :
    (generate_keystream seed n).get ⟨i, h⟩
      = lcgSpecState seed (i + 1) / 2 ^ 32 % 256 :=
  keystreamAux_get i n (LCG.new seed) h

theorem keystream_byte_spec_witness :
    (generate_keystream 2 3).get ⟨1, by decide⟩
      = lcgSpecState 2 2 / 2 ^ 32 % 256 :=
  keystream_byte_spec 2 3 1 (by decide) (by decide)

/-! ## The XOR cipher -/

/-- C6: XOR with a keystream at least as long as the data is an involution:
ciphering twice with the same keystream restores the data. -/
theorem xor_cipher_involution (data ks : List Nat) (h : data.length ≤ ks.length) :
    xor_cipher (xor_cipher data ks) ks = data := by
  induction data generalizing ks with
  | nil => simp [xor_cipher]
  | cons d ds ih =>
    cases ks with
    | nil => simp at h
    | cons k ks2 =>
      have hlen : ds.length ≤ ks2.length := by
        simp at h
        omega
      simp only [xor_cipher, List.zipWith_cons_cons] at *
      rw [Nat.xor_assoc, Nat.xor_self, Nat.xor_zero]
      rw [show List.zipWith (fun d k => d ^^^ k) (List.zipWith (fun d k => d ^^^ k) ds ks2) ks2
          = ds from ih ks2 hlen]

theorem xor_cipher_involution_witness :
    xor_cipher (xor_cipher [1, 2] [250, 7, 9]) [250, 7, 9] = [1, 2] :=
  xor_cipher_involution [1, 2] [250, 7, 9] (by decide)

/-! ## Framing -/

/-- C7: a frame built by the send path (4-byte little-endian length prefix,
then the payload) is decoded by the receive path back to exactly the original
payload, consuming the whole frame, for every payload shorter than 2 ^ 32. -/
theorem frame_roundtrip (payload : List Nat) (h : payload.length < 2 ^ 32) :
    recvFrame (encodeFrame payload) = some (payload, []) := by
  have hL : payload.length % 2 ^ 32 = payload.length := Nat.mod_eq_of_lt h
  have hfrom : fromLe32 (toLe32 payload.length) = payload.length := by
    rw [toLe32, fromLe32]
    omega
  rw [encodeFrame, hL, recvFrame]
  have h4 : readExact (toLe32 payload.length ++ payload) 4
      = some (toLe32 payload.length, payload) := by
    have hlen : 4 ≤ (toLe32 payload.length ++ payload).length := by
      simp only [toLe32, List.length_append, List.length_cons, List.length_nil]
      omega
    rw [readExact, if_pos hlen]
    rfl
  rw [h4]
  dsimp only
  rw [hfrom, readExact, if_pos (Nat.le_refl payload.length),
    List.take_length, List.drop_length]

theorem frame_roundtrip_witness :
    recvFrame (encodeFrame []) = some ([], [])
  ∧ recvFrame (encodeFrame [7]) = some ([7], [])
  ∧ recvFrame (encodeFrame (List.replicate 255 104))
      = some (List.replicate 255 104, [])
  ∧ recvFrame (encodeFrame (List.replicate 65536 104))
      = some (List.replicate 65536 104, []) :=
  ⟨frame_roundtrip [] (by decide), frame_roundtrip [7] (by decide),
   frame_roundtrip (List.replicate 255 104) (by norm_num),
   frame_roundtrip (List.replicate 65536 104) (by norm_num)⟩

/-- C8: a frame whose length prefix declares 10 bytes, over a stream that
closes after only 3 payload bytes, makes the exact read of the payload fail;
the receive path errors out and never yields the 3 bytes as a payload. -/
theorem truncated_frame_fails :
    readExact [1, 2, 3] 10 = none
  ∧ recvFrame [10, 0, 0, 0, 1, 2, 3] = none := by
  exact ⟨rfl, rfl⟩

/-! ## The chat loop -/

/-- C9: a console line that trims to the empty string produces no network
activity: nothing is sent, the inbound stream is left untouched, nothing is
displayed, and the loop just continues (the shared secret is immutable
throughout). -/
theorem empty_line_no_network (secret : Nat) (line netIn : List Nat)
    (h : trimAscii line = []) :
    chatStep secret line netIn = ([], StepOut.ok netIn none) := by
  rw [chatStep, if_pos h]

theorem empty_line_no_network_witness :
    chatStep 0 [32, 10] [1, 2] = ([], StepOut.ok [1, 2] none) :=
  empty_line_no_network 0 [32, 10] [1, 2] (by decide)

/-- C10: the diagnostic logging unconditionally indexes keystream bytes 0..3
on send and cipher/keystream bytes 0..3 on receive, so for a non-empty
trimmed message: a message shorter than 4 bytes panics with an
index-out-of-bounds before anything is sent; a message of length ≥ 4 is
encrypted and framed without panic, and the iteration completes for a
received frame of length ≥ 4 but panics (after the send) on a received frame
shorter than 4 bytes. -/
theorem chat_log_index_bounds (secret : Nat) (line netIn : List Nat)
    (hne : trimAscii line ≠ []) :
    ((trimAscii line).length < 4 →
        chatStep secret line netIn = ([], StepOut.indexOOB))
  ∧ (4 ≤ (trimAscii line).length →
      (chatStep secret line netIn).1
          = encodeFrame (xor_cipher (trimAscii line)
              (generate_keystream secret (trimAscii line).length))
      ∧ (∀ rc rest, recvFrame netIn = some (rc, rest) → 4 ≤ rc.length →
          chatStep secret line netIn
            = (encodeFrame (xor_cipher (trimAscii line)
                (generate_keystream secret (trimAscii line).length)),
               StepOut.ok rest
                 (some (xor_cipher rc (generate_keystream secret rc.length)))))
      ∧ (∀ rc rest, recvFrame netIn = some (rc, rest) → rc.length < 4 →
          chatStep secret line netIn
            = (encodeFrame (xor_cipher (trimAscii line)
                (generate_keystream secret (trimAscii line).length)),
               StepOut.indexOOB))) := by
  have hks : (generate_keystream secret (trimAscii line).length).length
      = (trimAscii line).length := generate_keystream_length _ _
  refine ⟨?_, ?_⟩
  · intro hlt
    rw [chatStep, if_neg hne, if_pos (by rw [hks]; exact hlt)]
  · intro hge
    have hcond : ¬ (generate_keystream secret (trimAscii line).length).length < 4 := by
      rw [hks]
      omega
    refine ⟨?_, ?_, ?_⟩
    · rw [chatStep, if_neg hne, if_neg hcond]
      cases hrf : recvFrame netIn with
      | none => rfl
      | some pr =>
        obtain ⟨rc, rest⟩ := pr
        dsimp only
        by_cases hrc : rc.length < 4 ∨ (generate_keystream secret rc.length).length < 4
        · rw [if_pos hrc]
        · rw [if_neg hrc]
    · intro rc rest hrf hrc4
      have hnot : ¬ (rc.length < 4 ∨ (generate_keystream secret rc.length).length < 4) := by
        rw [generate_keystream_length]
        omega
      rw [chatStep, if_neg hne, if_neg hcond, hrf]
      dsimp only
      rw [if_neg hnot]
    · intro rc rest hrf hrc4
      rw [chatStep, if_neg hne, if_neg hcond, hrf]
      dsimp only
      rw [if_pos (Or.inl hrc4)]

theorem chat_log_index_bounds_witness :
    chatStep 0 [104, 105, 10] [] = ([], StepOut.indexOOB) :=
  (chat_log_index_bounds 0 [104, 105, 10] [] (by decide)).1 (by decide)

/-- C1: with both private exponents fixed to 1, each peer's public value is
`g = 2` and the shared secret is `mod_exp 2 1 DH_P = 2` on both sides; the
cipher/framing pipeline round-trips the 2-byte message "hi" (bytes
104, 105): the encrypted frame decodes back and XOR-decrypting with
`generate_keystream 2 2` recovers exactly "hi".  However the chat loop's own
iteration on the message "hi" hits the out-of-bounds `keystream[2]` access
in the encrypt logging (main.rs:157) and panics before the frame is sent, so
a real peer B never receives it: the code contradicts the spec's end-to-end
test for any message shorter than 4 bytes. -/
theorem end_to_end_hi_exchange :
    mod_exp DH_G 1 DH_P = 2
  ∧ mod_exp (mod_exp DH_G 1 DH_P) 1 DH_P = 2
  ∧ recvFrame (encodeFrame (xor_cipher [104, 105] (generate_keystream 2 2)))
      = some (xor_cipher [104, 105] (generate_keystream 2 2), [])
  ∧ xor_cipher (xor_cipher [104, 105] (generate_keystream 2 2))
      (generate_keystream 2 2) = [104, 105]
  ∧ chatStep 2 [104, 105, 10]
      (encodeFrame (xor_cipher [104, 105] (generate_keystream 2 2)))
      = ([], StepOut.indexOOB) := by
  refine ⟨?_, ?_, by decide, by decide, by decide⟩
  · rw [mod_exp_eq_pow_mod _ _ _ (by decide)]
    decide
  · rw [mod_exp_eq_pow_mod _ _ _ (by decide), mod_exp_eq_pow_mod _ _ _ (by decide)]
    decide
